import Mathlib

/-!
# Verification of the meerkat memory-management core (`src/mm/vm.rs`)

Shallow embedding of `VirtualMemory` and its collaborators.  The page-table
manager (`super::pt`) and the physical frame allocator (`PHYS_MEM`) are not
part of the provided sources; they are modelled from the specification
(sections 4.1 and 4.2).  Machine integers (`usize`) are modelled as `Nat`;
every arithmetic operation used by the source (`>>`, `&`, `+`, `/`, `%`,
`<<`) is total and cannot overflow on the values reachable here (page
indices are bounded by `0xFFFFF`, far below `2^64`).  Rust's in-place
mutation becomes explicit state passing, and `panic!` becomes the
`Halt.panicked` outcome.
-/

/-- A page-table entry: `none` when free, `some f` when it maps frame `f`.
Modelled from the spec: "A table slot (entry) is either free or holds a
frame index"; per-entry `free()` is `Option.isNone`, `map` installs a
frame, `unmap` clears the entry and yields the frame it held. -/
abbrev Entry := Option Nat

/-- Modelled from the spec: a page table, from entry index (`page & 0x3FF`)
to entry.  Indices outside `0..1023` are never consulted. -/
abbrev Table := Nat → Entry

/-- Modelled from the spec: the page directory, from directory index
(`page >> 10`) to optionally installed table ("A directory slot either has
no table installed ... or owns an installed table"). -/
abbrev Dir := Nat → Option Table

/-- Modelled from the spec: a freshly created table is "empty (fully free)". -/
def emptyTable : Table := fun _ => none

/-- Modelled from the spec: `table(directory_index)` "returns the table if
one is installed, without creating it". -/
def Dir.table (pt : Dir) (d : Nat) : Option Table := pt d

/-- Modelled from the spec: `table_create(directory_index)` "returns the
table at that directory slot, creating and installing an empty one (fully
free) if absent".  Returns the table together with the updated directory. -/
def Dir.table_create (pt : Dir) (d : Nat) : Table × Dir :=
  match pt d with
  | some t => (t, pt)
  | none => (emptyTable, fun d' => if d' = d then some emptyTable else pt d')

/-- Overwrite the entry at directory slot `d`, entry index `i` (the slot is
expected to be installed; on an absent slot this installs the one-entry
update of the empty table, which no caller exercises). -/
def Dir.setEntry (pt : Dir) (d i : Nat) (e : Entry) : Dir :=
  fun d' =>
    if d' = d then
      match pt d' with
      | some t => some fun i' => if i' = i then e else t i'
      | none => some fun i' => if i' = i then e else none
    else pt d'

/-- The entry governing a page: `none` when the covering table is absent or
the entry is free (both mean the page is unmapped), `some f` when the page
is mapped to frame `f`. -/
def Dir.entry (pt : Dir) (page : Nat) : Entry :=
  match pt (page >>> 10) with
  | none => none
  | some t => t (page &&& 0x3FF)

/-- A page is free (unmapped) when no entry maps it. -/
def Dir.pageFree (pt : Dir) (page : Nat) : Bool := (pt.entry page).isNone

/-- Modelled from the spec (§4.1): the Physical Frame Allocator state, "a
mapping from frame index to free/used status covering the full addressable
physical range", with the tracked limit below which `find_free` scans.
`status f = true` means frame `f` is free. -/
structure PhysMem where
  status : Nat → Bool
  limit : Nat

namespace PhysMem

/-- Modelled from the spec (§4.1): a run of `count` contiguous frames
starting at `f` is entirely free. -/
def freeRun (pm : PhysMem) (f : Nat) : Nat → Bool
  | 0 => true
  | count + 1 => pm.status f && pm.freeRun (f + 1) count

/-- Helper for `find_free`: try candidate starts `f, f+1, ...`,
`remaining` of them. -/
def findFrom (pm : PhysMem) (count f remaining : Nat) : Option Nat :=
  match remaining with
  | 0 => none
  | r + 1 => if pm.freeRun f count then some f else pm.findFrom count (f + 1) r

/-- Modelled from the spec (§4.1): `find_free(count)` "locates the first
run of `count` contiguous free frames scanning from the lowest tracked
frame; returns none if no such run exists below the tracked limit". -/
def find_free (pm : PhysMem) (count : Nat) : Option Nat :=
  if count ≤ pm.limit then pm.findFrom count 0 (pm.limit - count + 1) else none

/-- Modelled from the spec (§4.1): `mark_used(frame_start, count)` marks a
contiguous run used. -/
def mark_used (pm : PhysMem) (frame_start count : Nat) : PhysMem :=
  { pm with
    status := fun f =>
      if frame_start ≤ f ∧ f < frame_start + count then false else pm.status f }

/-- Modelled from the spec (§4.1): `mark_free(frame_start, count)` marks a
contiguous run free. -/
def mark_free (pm : PhysMem) (frame_start count : Nat) : PhysMem :=
  { pm with
    status := fun f =>
      if frame_start ≤ f ∧ f < frame_start + count then true else pm.status f }

end PhysMem

/-- The whole mutable state reachable from `VirtualMemory`: the page
directory root (`super::pt::ROOT`) and the physical frame allocator
(`PHYS_MEM`, its lock irrelevant in this single-threaded model). -/
structure Kernel where
  pt : Dir
  pm : PhysMem

/-- Outcome of an operation that can `panic!`: either a result or a halt
carrying the panic message. -/
inductive Halt (α : Type) where
  | ok : α → Halt α
  | panicked : String → Halt α
deriving DecidableEq

/-- Modelled from the spec: page size / `super::pt::GRANULARITY`.  The heap
adapter's shifts by 12 and the spec's concrete scenario (frame `0x100` for
physical address `0x100000`) both fix it at 4096. -/
def GRANULARITY : Nat := 4096

namespace VirtualMemory

/-- The loop of `VirtualMemory::find_free` (`src/mm/vm.rs` lines 79-100),
with the mutable locals `page_start` and `consecutive_pages` explicit.
`while consecutive_pages < pages` runs the body; the body returns `None`
when `page_start + pages > 0xFFFFF`, adds 1024 to `consecutive_pages` when
the covering table is absent, adds 1 over an explicitly free entry, and
restarts just past a used page. -/
def find_free_loop (pt : Dir) (pages page_start consecutive_pages : Nat) :
    Option Nat :=
  if _h1 : consecutive_pages < pages then
    if _h2 : page_start + pages > 0xFFFFF then
      none
    else
      match pt.table ((page_start + consecutive_pages) >>> 10) with
      | none => find_free_loop pt pages page_start (consecutive_pages + 1024)
      | some t =>
        if (t ((page_start + consecutive_pages) &&& 0x3FF)).isNone then
          find_free_loop pt pages page_start (consecutive_pages + 1)
        else
          find_free_loop pt pages (page_start + 1 + consecutive_pages) 0
  else
    some page_start
termination_by 0x300000 - (2 * page_start + consecutive_pages)
decreasing_by
  all_goals omega

/-- `VirtualMemory::find_free` (lines 78-103): the scan starts at
`page_start = 1`, `consecutive_pages = 0`. -/
def find_free (pt : Dir) (pages : Nat) : Option Nat :=
  find_free_loop pt pages 1 0

/-- The `for` loop of `VirtualMemory::map` (lines 26-37): install
`n` mappings, page `page ↦ frame`, then `page+1 ↦ frame+1`, ...  Each step
creates the covering table if needed, panics with "non-contiguous" if the
target entry is not free, and otherwise installs the frame. -/
def map_loop (pt : Dir) (page frame n : Nat) : Halt Dir :=
  match n with
  | 0 => Halt.ok pt
  | m + 1 =>
    let tc := pt.table_create (page >>> 10)
    if (tc.1 (page &&& 0x3FF)).isNone then
      map_loop (tc.2.setEntry (page >>> 10) (page &&& 0x3FF) (some frame))
        (page + 1) (frame + 1) m
    else
      Halt.panicked "non-contiguous"

/-- `VirtualMemory::map` (lines 24-40): find `frames` contiguous free
pages, then install the mappings in lockstep. -/
def map (k : Kernel) (frame_start frames : Nat) : Halt (Option Nat × Kernel) :=
  match find_free k.pt frames with
  | none => Halt.ok (none, k)
  | some page_start =>
    match map_loop k.pt page_start frame_start frames with
    | Halt.ok pt' => Halt.ok (some page_start, { k with pt := pt' })
    | Halt.panicked msg => Halt.panicked msg

/-- `VirtualMemory::allocate_contiguous` (lines 49-59): find and mark free
frames under the `PHYS_MEM` lock, then map them; `None` from the frame
search or from `map` propagates as `None` (with the frames left marked
used in the second case). -/
def allocate_contiguous (k : Kernel) (pages : Nat) :
    Halt (Option (Nat × Nat) × Kernel) :=
  match k.pm.find_free pages with
  | none => Halt.ok (none, k)
  | some frame_start =>
    let k1 : Kernel := { k with pm := k.pm.mark_used frame_start pages }
    match map k1 frame_start pages with
    | Halt.ok (none, k2) => Halt.ok (none, k2)
    | Halt.ok (some page_start, k2) => Halt.ok (some (page_start, frame_start), k2)
    | Halt.panicked msg => Halt.panicked msg

/-- `VirtualMemory::allocate` (lines 43-46): `allocate_contiguous`,
keeping only the page start. -/
def allocate (k : Kernel) (pages : Nat) : Halt (Option Nat × Kernel) :=
  match allocate_contiguous k pages with
  | Halt.ok (none, k') => Halt.ok (none, k')
  | Halt.ok (some (page_start, _), k') => Halt.ok (some page_start, k')
  | Halt.panicked msg => Halt.panicked msg

/-- The `for` loop of `VirtualMemory::free` (lines 64-74): for each page,
look up the covering table (panic "already freed" if absent), panic
"already freed" if the entry is free, otherwise unmap it and return the
frame it held to the frame allocator with `mark_free(frame, 1)`. -/
def free_loop (k : Kernel) (page n : Nat) : Halt Kernel :=
  match n with
  | 0 => Halt.ok k
  | m + 1 =>
    match k.pt.table (page >>> 10) with
    | none => Halt.panicked "already freed"
    | some t =>
      match t (page &&& 0x3FF) with
      | none => Halt.panicked "already freed"
      | some frame =>
        free_loop
          { pt := k.pt.setEntry (page >>> 10) (page &&& 0x3FF) none
            pm := k.pm.mark_free frame 1 }
          (page + 1) m

/-- `VirtualMemory::free` (lines 62-75). -/
def free (k : Kernel) (page_start pages : Nat) : Halt Kernel :=
  free_loop k page_start pages

/-- `GlobalAlloc::alloc` for `VirtualMemory` (lines 107-111): round the
layout size up to pages with `((size - 1) >> 12) + 1`, allocate, and scale
the page index back to a byte address; null (0) on failure.  The layout's
alignment is received but never read, exactly as in the source. -/
def alloc (k : Kernel) (size align : Nat) : Halt (Nat × Kernel) :=
  match allocate k (((size - 1) >>> 12) + 1) with
  | Halt.ok (none, k') => Halt.ok (0, k')
  | Halt.ok (some page_start, k') => Halt.ok (page_start <<< 12, k')
  | Halt.panicked msg => Halt.panicked msg

/-- `GlobalAlloc::dealloc` for `VirtualMemory` (lines 113-117): recover the
page index as `((ptr - 1) >> 12) + 1` and the page count as
`((size - 1) >> 12) + 1`, then free. -/
def dealloc (k : Kernel) (ptr size align : Nat) : Halt Kernel :=
  free k (((ptr - 1) >>> 12) + 1) (((size - 1) >>> 12) + 1)

/-- `AcpiHandler::map_physical_region` for `VirtualMemory` (lines
121-145): physical addresses up to `0x003F_FFFF` are identity-mapped;
otherwise map `size.div_ceil(GRANULARITY)` pages starting at frame
`phys_addr / GRANULARITY` (panicking on `unwrap` of a failed `map`) and
return the mapped base plus the sub-page offset. -/
def map_physical_region (k : Kernel) (phys_addr size : Nat) :
    Halt (Nat × Kernel) :=
  if phys_addr ≤ 0x003FFFFF then
    Halt.ok (phys_addr, k)
  else
    match map k (phys_addr / GRANULARITY) ((size + GRANULARITY - 1) / GRANULARITY) with
    | Halt.ok (none, _) => Halt.panicked "unwrap on None"
    | Halt.ok (some page, k') =>
      Halt.ok (page * GRANULARITY + phys_addr % GRANULARITY, k')
    | Halt.panicked msg => Halt.panicked msg

end VirtualMemory

/-! ## Arithmetic bridges for `>>> 10`, `&&& 0x3FF`, `>>> 12`, `<<< 12` -/

theorem shr10_eq (n : Nat) : n >>> 10 = n / 1024 :=
  Nat.shiftRight_eq_div_pow n 10

theorem and1023_eq (n : Nat) : n &&& 0x3FF = n % 1024 :=
  Nat.and_pow_two_sub_one_eq_mod n 10

theorem shr12_eq (n : Nat) : n >>> 12 = n / 4096 :=
  Nat.shiftRight_eq_div_pow n 12

theorem shl12_eq (n : Nat) : n <<< 12 = n * 4096 := by
  have := Nat.shiftLeft_eq n 12
  simpa using this

/-- Reassembling a page index from its directory and table indices. -/
theorem page_decomp (q : Nat) : 1024 * (q >>> 10) + (q &&& 0x3FF) = q := by
  rw [shr10_eq, and1023_eq]
  omega

theorem page_index_lt (q : Nat) : q &&& 0x3FF < 1024 := by
  rw [and1023_eq]
  omega

/-- Two distinct pages differ in directory index or table index. -/
theorem page_inj {p q : Nat} (h : p >>> 10 = q >>> 10)
    (h' : p &&& 0x3FF = q &&& 0x3FF) : p = q := by
  have hp := page_decomp p
  have hq := page_decomp q
  omega

/-! ## Entry lemmas for the page-table operations -/

theorem Dir.table_create_fst (pt : Dir) (q : Nat) :
    (pt.table_create (q >>> 10)).1 (q &&& 0x3FF) = pt.entry q := by
  unfold Dir.table_create Dir.entry
  cases pt (q >>> 10) <;> simp [emptyTable]

theorem Dir.table_create_entry (pt : Dir) (d q : Nat) :
    ((pt.table_create d).2).entry q = pt.entry q := by
  unfold Dir.table_create Dir.entry
  cases h : pt d
  · simp only [h]
    by_cases hq : q >>> 10 = d
    · simp [hq, h, emptyTable]
    · simp [hq]
  · simp [h]

theorem Dir.table_create_absent (pt : Dir) (d d' : Nat) (h : pt d' = none)
    (hne : d' ≠ d) : ((pt.table_create d).2) d' = none := by
  unfold Dir.table_create
  cases hd : pt d <;> simp [hd, hne, h]

theorem Dir.setEntry_entry_same (pt : Dir) (e : Entry) (q : Nat) :
    (pt.setEntry (q >>> 10) (q &&& 0x3FF) e).entry q = e := by
  unfold Dir.setEntry Dir.entry
  cases h : pt (q >>> 10) <;> simp [h]

theorem Dir.setEntry_entry_other (pt : Dir) (d i : Nat) (e : Entry) (q : Nat)
    (h : q >>> 10 ≠ d ∨ q &&& 0x3FF ≠ i) :
    (pt.setEntry d i e).entry q = pt.entry q := by
  unfold Dir.setEntry Dir.entry
  rcases h with h | h
  · simp [h]
  · by_cases hd : q >>> 10 = d
    · rw [hd]
      cases hp : pt d <;> simp [hp, h]
    · simp [hd]

theorem Dir.setEntry_entry_ne (pt : Dir) (e : Entry) (p q : Nat)
    (h : q ≠ p) : (pt.setEntry (p >>> 10) (p &&& 0x3FF) e).entry q = pt.entry q := by
  apply Dir.setEntry_entry_other
  by_contra hc
  push_neg at hc
  exact h (page_inj hc.1 hc.2)

theorem Dir.setEntry_installed (pt : Dir) (d i : Nat) (e : Entry) (d' : Nat)
    (h : (pt.setEntry d i e) d' = none) : pt d' = none ∧ d' ≠ d := by
  unfold Dir.setEntry at h
  by_cases hd : d' = d
  · rw [if_pos hd] at h
    cases hp : pt d' <;> simp [hp] at h
  · rw [if_neg hd] at h
    exact ⟨h, hd⟩

/-! ## Step and exit lemmas for the free-space search loop -/

namespace VirtualMemory

theorem find_free_loop_exit (pt : Dir) (pages s c : Nat) (h : pages ≤ c) :
    find_free_loop pt pages s c = some s := by
  rw [find_free_loop]
  simp [Nat.not_lt.mpr h]

theorem find_free_loop_none (pt : Dir) (pages s c : Nat) (h : c < pages)
    (hb : s + pages > 0xFFFFF) :
    find_free_loop pt pages s c = none := by
  rw [find_free_loop]
  simp [h, hb]

theorem find_free_loop_absent (pt : Dir) (pages s c : Nat) (h : c < pages)
    (hb : s + pages ≤ 0xFFFFF) (ht : pt ((s + c) >>> 10) = none) :
    find_free_loop pt pages s c = find_free_loop pt pages s (c + 1024) := by
  conv_lhs => rw [find_free_loop]
  simp [h, Nat.not_lt.mpr hb, Dir.table, ht]

theorem find_free_loop_free (pt : Dir) (pages s c : Nat) (t : Table)
    (h : c < pages) (hb : s + pages ≤ 0xFFFFF)
    (ht : pt ((s + c) >>> 10) = some t) (he : t ((s + c) &&& 0x3FF) = none) :
    find_free_loop pt pages s c = find_free_loop pt pages s (c + 1) := by
  conv_lhs => rw [find_free_loop]
  simp [h, Nat.not_lt.mpr hb, Dir.table, ht, he]

theorem find_free_loop_used (pt : Dir) (pages s c : Nat) (t : Table) (f : Nat)
    (h : c < pages) (hb : s + pages ≤ 0xFFFFF)
    (ht : pt ((s + c) >>> 10) = some t) (he : t ((s + c) &&& 0x3FF) = some f) :
    find_free_loop pt pages s c = find_free_loop pt pages (s + 1 + c) 0 := by
  conv_lhs => rw [find_free_loop]
  simp [h, Nat.not_lt.mpr hb, Dir.table, ht, he]

end VirtualMemory

/-! ## Characterizing the installation loop of `map` -/

namespace VirtualMemory

theorem map_loop_preserves (pt : Dir) (page frame n : Nat) (pt' : Dir)
    (h : map_loop pt page frame n = Halt.ok pt') :
    ∀ q, q < page ∨ page + n ≤ q → pt'.entry q = pt.entry q := by
  induction n generalizing pt page frame with
  | zero =>
    simp only [map_loop] at h
    cases h
    intro q _
    rfl
  | succ m ih =>
    simp only [map_loop] at h
    by_cases hfree : ((pt.table_create (page >>> 10)).1 (page &&& 0x3FF)).isNone
    · rw [if_pos hfree] at h
      intro q hq
      have hq' : q < page + 1 ∨ (page + 1) + m ≤ q := by omega
      rw [ih _ _ _ h q hq']
      rw [Dir.setEntry_entry_ne _ _ _ _ (by omega)]
      exact Dir.table_create_entry pt _ q
    · rw [if_neg hfree] at h
      cases h

theorem map_loop_entries (pt : Dir) (page frame n : Nat) (pt' : Dir)
    (h : map_loop pt page frame n = Halt.ok pt') :
    ∀ i, i < n → pt'.entry (page + i) = some (frame + i) := by
  induction n generalizing pt page frame with
  | zero => omega
  | succ m ih =>
    simp only [map_loop] at h
    by_cases hfree : ((pt.table_create (page >>> 10)).1 (page &&& 0x3FF)).isNone
    · rw [if_pos hfree] at h
      intro i hi
      match i with
      | 0 =>
        have hp := map_loop_preserves _ _ _ _ _ h page (by omega)
        rw [Nat.add_zero, hp, Dir.setEntry_entry_same]
        rfl
      | j + 1 =>
        have := ih _ _ _ h j (by omega)
        rw [show page + (j + 1) = page + 1 + j by omega, this]
        congr 1
        omega
    · rw [if_neg hfree] at h
      cases h

theorem map_loop_ok_of_free (pt : Dir) (page frame n : Nat)
    (h : ∀ i, i < n → pt.entry (page + i) = none) :
    ∃ pt', map_loop pt page frame n = Halt.ok pt' := by
  induction n generalizing pt page frame with
  | zero => exact ⟨pt, rfl⟩
  | succ m ih =>
    have h0 : pt.entry page = none := by simpa using h 0 (by omega)
    have hfree : ((pt.table_create (page >>> 10)).1 (page &&& 0x3FF)).isNone := by
      rw [Dir.table_create_fst, h0]
      rfl
    have hrest : ∀ i, i < m →
        (((pt.table_create (page >>> 10)).2.setEntry (page >>> 10) (page &&& 0x3FF)
          (some frame)).entry (page + 1 + i)) = none := by
      intro i hi
      rw [show page >>> 10 = (page >>> 10) from rfl]
      rw [Dir.setEntry_entry_ne _ _ _ _ (by omega), Dir.table_create_entry]
      have := h (i + 1) (by omega)
      rwa [show page + (i + 1) = page + 1 + i by omega] at this
    obtain ⟨pt', hpt'⟩ := ih _ _ _ hrest
    refine ⟨pt', ?_⟩
    simp only [map_loop]
    rw [if_pos hfree]
    exact hpt'

theorem map_loop_panics (pt : Dir) (page frame n : Nat)
    (h : ∃ i, i < n ∧ (pt.entry (page + i)).isSome) :
    map_loop pt page frame n = Halt.panicked "non-contiguous" := by
  induction n generalizing pt page frame with
  | zero =>
    obtain ⟨i, hi, _⟩ := h
    omega
  | succ m ih =>
    by_cases h0 : (pt.entry page).isSome
    · have hfree : ¬ ((pt.table_create (page >>> 10)).1 (page &&& 0x3FF)).isNone := by
        rw [Dir.table_create_fst]
        cases he : pt.entry page
        · rw [he] at h0
          cases h0
        · simp [he]
      simp only [map_loop]
      rw [if_neg hfree]
    · have h0' : pt.entry page = none := by
        cases he : pt.entry page
        · rfl
        · rw [he] at h0
          simp at h0
      have hfree : ((pt.table_create (page >>> 10)).1 (page &&& 0x3FF)).isNone := by
        rw [Dir.table_create_fst, h0']
        rfl
      obtain ⟨i, hi, hsome⟩ := h
      match i with
      | 0 =>
        rw [Nat.add_zero] at hsome
        rw [h0'] at hsome
        cases hsome
      | j + 1 =>
        simp only [map_loop]
        rw [if_pos hfree]
        apply ih
        refine ⟨j, by omega, ?_⟩
        rw [Dir.setEntry_entry_ne _ _ _ _ (by omega), Dir.table_create_entry]
        rwa [show page + 1 + j = page + (j + 1) by omega]
end VirtualMemory

/-! ## Characterizing the loop of `free` -/

namespace VirtualMemory

theorem entry_elim (pt : Dir) (page f : Nat) (h : pt.entry page = some f) :
    ∃ t, pt (page >>> 10) = some t ∧ t (page &&& 0x3FF) = some f := by
  unfold Dir.entry at h
  cases hpt : pt (page >>> 10)
  · rw [hpt] at h
    cases h
  · rw [hpt] at h
    exact ⟨_, rfl, h⟩

theorem free_loop_ok (k : Kernel) (page n : Nat) (fr : Nat → Nat)
    (h : ∀ i, i < n → k.pt.entry (page + i) = some (fr i)) :
    ∃ k', free_loop k page n = Halt.ok k' ∧
      (∀ i, i < n → k'.pt.entry (page + i) = none) ∧
      (∀ q, (∀ i, i < n → q ≠ page + i) → k'.pt.entry q = k.pt.entry q) ∧
      (∀ i, i < n → k'.pm.status (fr i) = true) ∧
      (∀ x, (∀ i, i < n → fr i ≠ x) → k'.pm.status x = k.pm.status x) ∧
      k'.pm.limit = k.pm.limit := by
  induction n generalizing k page fr with
  | zero =>
    refine ⟨k, rfl, ?_, ?_, ?_, ?_, rfl⟩ <;> intros <;> first | omega | rfl
  | succ m ih =>
    have h0 : k.pt.entry page = some (fr 0) := by simpa using h 0 (by omega)
    obtain ⟨t, hpt, ht⟩ := entry_elim _ _ _ h0
    set k2 : Kernel :=
      { pt := k.pt.setEntry (page >>> 10) (page &&& 0x3FF) none
        pm := k.pm.mark_free (fr 0) 1 } with hk2
    have hrec : ∀ i, i < m → k2.pt.entry (page + 1 + i) = some ((fun j => fr (j + 1)) i) := by
      intro i hi
      show (k.pt.setEntry (page >>> 10) (page &&& 0x3FF) none).entry (page + 1 + i) = _
      rw [Dir.setEntry_entry_ne _ _ _ _ (by omega)]
      have := h (i + 1) (by omega)
      rwa [show page + (i + 1) = page + 1 + i by omega] at this
    obtain ⟨k', hk', hin, hout, hst, hstout, hlim⟩ := ih k2 (page + 1) _ hrec
    have hstep : free_loop k page (m + 1) = free_loop k2 (page + 1) m := by
      simp only [free_loop, Dir.table, hpt, ht]
    refine ⟨k', by rw [hstep]; exact hk', ?_, ?_, ?_, ?_, ?_⟩
    · intro i hi
      match i with
      | 0 =>
        rw [Nat.add_zero, hout page (by intro j hj; omega)]
        exact Dir.setEntry_entry_same _ _ _
      | j + 1 =>
        have := hin j (by omega)
        rwa [show page + 1 + j = page + (j + 1) by omega] at this
    · intro q hq
      rw [hout q (by intro j hj; have := hq (j + 1) (by omega); omega)]
      exact Dir.setEntry_entry_ne _ _ _ _ (by have := hq 0 (by omega); omega)
    · intro i hi
      match i with
      | 0 =>
        by_cases hx : ∃ j, j < m ∧ fr (j + 1) = fr 0
        · obtain ⟨j, hj, hfj⟩ := hx
          have := hst j hj
          simpa [hfj] using this
        · push_neg at hx
          rw [hstout (fr 0) (by intro j hj; exact hx j hj)]
          show (k.pm.mark_free (fr 0) 1).status (fr 0) = true
          simp [PhysMem.mark_free]
      | j + 1 => exact hst j (by omega)
    · intro x hx
      rw [hstout x (fun j hj => hx (j + 1) (by omega))]
      show (k.pm.mark_free (fr 0) 1).status x = k.pm.status x
      have hx0 := hx 0 (by omega)
      simp only [PhysMem.mark_free]
      rw [if_neg (by omega)]
    · rw [hlim]
      rfl

theorem free_loop_panics (k : Kernel) (page n : Nat)
    (h : ∃ i, i < n ∧ k.pt.entry (page + i) = none) :
    free_loop k page n = Halt.panicked "already freed" := by
  induction n generalizing k page with
  | zero =>
    obtain ⟨i, hi, _⟩ := h
    omega
  | succ m ih =>
    cases h0 : k.pt.entry page with
    | none =>
      unfold Dir.entry at h0
      cases hpt : k.pt (page >>> 10) with
      | none => simp only [free_loop, Dir.table, hpt]
      | some t =>
        rw [hpt] at h0
        simp only [Option.some.injEq] at h0
        simp only [free_loop, Dir.table, hpt, h0]
    | some f =>
      obtain ⟨t, hpt, ht⟩ := entry_elim _ _ _ h0
      obtain ⟨i, hi, hnone⟩ := h
      match i with
      | 0 =>
        rw [Nat.add_zero, h0] at hnone
        cases hnone
      | j + 1 =>
        have hstep : free_loop k page (m + 1) =
            free_loop
              { pt := k.pt.setEntry (page >>> 10) (page &&& 0x3FF) none
                pm := k.pm.mark_free f 1 } (page + 1) m := by
          simp only [free_loop, Dir.table, hpt, ht]
        rw [hstep]
        apply ih
        refine ⟨j, by omega, ?_⟩
        show (k.pt.setEntry (page >>> 10) (page &&& 0x3FF) none).entry (page + 1 + j) = none
        rw [Dir.setEntry_entry_ne _ _ _ _ (by omega)]
        have := hnone
        rwa [show page + (j + 1) = page + 1 + j by omega] at this

end VirtualMemory

/-! ## Loop invariant: bounds of a successful search -/

namespace VirtualMemory

theorem find_free_loop_bounds (pt : Dir) (pages : Nat) :
    ∀ N s c, 0x300000 - (2 * s + c) ≤ N → 1 ≤ s → s ≤ 0xFFFFF →
      (0 < c → s + pages ≤ 0xFFFFF) →
      ∀ p, find_free_loop pt pages s c = some p → 1 ≤ p ∧ p + pages ≤ 0xFFFFF := by
  intro N
  induction N with
  | zero =>
    intro s c hm h1 hs hc p hp
    rw [find_free_loop] at hp
    split at hp
    · split at hp
      · cases hp
      · omega
    · cases hp
      constructor
      · exact h1
      · by_cases h0 : pages = 0
        · omega
        · have := hc (by omega)
          omega
  | succ N ih =>
    intro s c hm h1 hs hc p hp
    by_cases hlt : c < pages
    · by_cases hb : s + pages > 0xFFFFF
      · rw [find_free_loop_none pt pages s c hlt hb] at hp
        cases hp
      · have hb' : s + pages ≤ 0xFFFFF := by omega
        cases hpt : pt ((s + c) >>> 10) with
        | none =>
          rw [find_free_loop_absent pt pages s c hlt hb' hpt] at hp
          exact ih s (c + 1024) (by omega) h1 hs (fun _ => hb') p hp
        | some t =>
          cases he : t ((s + c) &&& 0x3FF) with
          | none =>
            rw [find_free_loop_free pt pages s c t hlt hb' hpt he] at hp
            exact ih s (c + 1) (by omega) h1 hs (fun _ => hb') p hp
          | some f =>
            rw [find_free_loop_used pt pages s c t f hlt hb' hpt he] at hp
            exact ih (s + 1 + c) 0 (by omega) (by omega) (by omega) (by omega) p hp
    · rw [find_free_loop_exit pt pages s c (by omega)] at hp
      cases hp
      constructor
      · exact h1
      · by_cases h0 : pages = 0
        · omega
        · have := hc (by omega)
          omega

theorem find_free_some_bounds (pt : Dir) (pages p : Nat)
    (hp : find_free pt pages = some p) : 1 ≤ p ∧ p + pages ≤ 0xFFFFF :=
  find_free_loop_bounds pt pages 0x300000 1 0 (by omega) (by omega) (by omega)
    (by omega) p hp

/-- Destructing a successful `map` with a mapped result. -/
theorem map_ok_some_elim (k : Kernel) (fs n p : Nat) (k' : Kernel)
    (h : map k fs n = Halt.ok (some p, k')) :
    find_free k.pt n = some p ∧
      ∃ pt', map_loop k.pt p fs n = Halt.ok pt' ∧ k' = { k with pt := pt' } := by
  unfold map at h
  split at h
  · simp at h
  · rename_i p0 hf
    split at h
    · rename_i pt' hl
      rw [Halt.ok.injEq, Prod.mk.injEq, Option.some.injEq] at h
      obtain ⟨rfl, rfl⟩ := h
      exact ⟨hf, pt', hl, rfl⟩
    · cases h

end VirtualMemory

/-! ## Concrete-state helpers for evaluation witnesses -/

/-- A physical memory with all frames free below `n`. -/
def pmAll (n : Nat) : PhysMem := ⟨fun _ => true, n⟩

theorem pmAll_freeRun (n : Nat) : ∀ c f, (pmAll n).freeRun f c = true := by
  intro c
  induction c with
  | zero => intro f; rfl
  | succ m ih =>
    intro f
    simp only [PhysMem.freeRun, ih (f + 1)]
    rfl

theorem pmAll_find_free (n c : Nat) (h : c ≤ n) :
    (pmAll n).find_free c = some 0 := by
  unfold PhysMem.find_free
  rw [if_pos (by exact h)]
  show (pmAll n).findFrom c 0 (n - c + 1) = some 0
  unfold PhysMem.findFrom
  simp [pmAll_freeRun]

namespace VirtualMemory

theorem find_free_empty (pages : Nat) (h : pages ≤ 1024) :
    find_free (fun _ => none) pages = some 1 := by
  unfold find_free
  by_cases h0 : pages = 0
  · rw [find_free_loop_exit _ _ _ _ (by omega)]
  · rw [find_free_loop_absent _ _ _ _ (by omega) (by omega) rfl]
    rw [find_free_loop_exit _ _ _ _ (by omega)]

end VirtualMemory

/-! ## Concrete states and runs used by evaluation witnesses -/

/-- An empty kernel: no tables installed, no free frames tracked. -/
def kC3a : Kernel := ⟨fun _ => none, ⟨fun _ => false, 0⟩⟩

/-- Empty page tables with a large all-free physical memory. -/
def kC3b : Kernel := ⟨fun _ => none, pmAll 0xFFFFF⟩

/-- Empty page tables, 8 free frames. -/
def kS : Kernel := ⟨fun _ => none, pmAll 8⟩

/-- The page tables after mapping page 1 to frame 0 starting from empty. -/
def ptSpost : Dir :=
  ((Dir.table_create (fun _ => none) (1 >>> 10)).2).setEntry (1 >>> 10) (1 &&& 0x3FF)
    (some 0)

/-- The state after `allocate_contiguous kS 1`: page 1 mapped to frame 0. -/
def kSpost : Kernel := ⟨ptSpost, (pmAll 8).mark_used 0 1⟩

theorem map_eval (pt0 : Dir) (pm0 : PhysMem) (p fs n : Nat)
    (hff : VirtualMemory.find_free pt0 n = some p) (pt' : Dir)
    (hl : VirtualMemory.map_loop pt0 p fs n = Halt.ok pt') :
    VirtualMemory.map ⟨pt0, pm0⟩ fs n = Halt.ok (some p, ⟨pt', pm0⟩) := by
  unfold VirtualMemory.map
  simp only [hff, hl]

theorem allocate_contiguous_eval (pt0 : Dir) (pm0 : PhysMem) (pages f p : Nat)
    (pt' : Dir) (hpm : pm0.find_free pages = some f)
    (hff : VirtualMemory.find_free pt0 pages = some p)
    (hl : VirtualMemory.map_loop pt0 p f pages = Halt.ok pt') :
    VirtualMemory.allocate_contiguous ⟨pt0, pm0⟩ pages =
      Halt.ok (some (p, f), ⟨pt', pm0.mark_used f pages⟩) := by
  unfold VirtualMemory.allocate_contiguous
  simp only [hpm, map_eval pt0 (pm0.mark_used f pages) p f pages hff pt' hl]

theorem allocS :
    VirtualMemory.allocate_contiguous kS 1 = Halt.ok (some (1, 0), kSpost) :=
  allocate_contiguous_eval (fun _ => none) (pmAll 8) 1 0 1 ptSpost
    (pmAll_find_free 8 1 (by omega)) (VirtualMemory.find_free_empty 1 (by omega)) rfl

theorem allocate_of_contiguous (k : Kernel) (pages p f : Nat) (k' : Kernel)
    (h : VirtualMemory.allocate_contiguous k pages = Halt.ok (some (p, f), k')) :
    VirtualMemory.allocate k pages = Halt.ok (some p, k') := by
  unfold VirtualMemory.allocate
  rw [h]

theorem allocS' : VirtualMemory.allocate kS 1 = Halt.ok (some 1, kSpost) :=
  allocate_of_contiguous kS 1 1 0 kSpost allocS

/-- Directory with slot 0 absent and slot 1 installed, its entry 0 (page
1024) mapped to frame 9 and everything else free. -/
def ptW8 : Dir :=
  fun d => if d = 1 then some (fun i => if i = 0 then some 9 else none) else none

def kW8 : Kernel := ⟨ptW8, pmAll 0⟩

theorem ffW8a : VirtualMemory.find_free ptW8 1024 = some 1 := by
  unfold VirtualMemory.find_free
  rw [VirtualMemory.find_free_loop_absent _ _ _ _ (by omega) (by omega) (by rfl)]
  rw [VirtualMemory.find_free_loop_exit _ _ _ _ (by omega)]

theorem ffW8b : VirtualMemory.find_free ptW8 1 = some 1 := by
  unfold VirtualMemory.find_free
  rw [VirtualMemory.find_free_loop_absent _ _ _ _ (by omega) (by omega) (by rfl)]
  rw [VirtualMemory.find_free_loop_exit _ _ _ _ (by omega)]

/-- Directory with a single mapped page 1 (slot 0 installed), used by the
`free` witness. -/
def kC7 : Kernel := ⟨Dir.setEntry (fun _ => none) 0 1 (some 5), pmAll 0⟩

/-! ## C8: map panics exactly on a non-free target entry -/

/-- C8: once `find_free` has returned a start `p`, the installation loop of
`map(frame_start, frames)` halts with the "non-contiguous" panic when some
target entry in `[p, p+frames)` is non-free, and otherwise installs all
`frames` mappings and returns `p` without halting. -/
theorem claim_C8 (k : Kernel) (frame_start frames p : Nat)
    (hf : VirtualMemory.find_free k.pt frames = some p) :
    ((∃ i, i < frames ∧ (k.pt.entry (p + i)).isSome) →
      VirtualMemory.map k frame_start frames = Halt.panicked "non-contiguous") ∧
    ((∀ i, i < frames → k.pt.entry (p + i) = none) →
      ∃ k', VirtualMemory.map k frame_start frames = Halt.ok (some p, k') ∧
        ∀ i, i < frames → k'.pt.entry (p + i) = some (frame_start + i)) := by
  constructor
  · intro hsome
    simp only [VirtualMemory.map, hf,
      VirtualMemory.map_loop_panics k.pt p frame_start frames hsome]
  · intro hfree
    obtain ⟨pt', hpt'⟩ :=
      VirtualMemory.map_loop_ok_of_free k.pt p frame_start frames hfree
    refine ⟨{ k with pt := pt' }, ?_, ?_⟩
    · simp only [VirtualMemory.map, hf, hpt']
    · intro i hi
      exact VirtualMemory.map_loop_entries _ _ _ _ _ hpt' i hi

/-- C8 witness: on `kW8` (slot 0 absent, page 1024 mapped), the buggy fast
path hands `map` the start 1 for 1024 pages and the loop panics; for one
page the loop succeeds and installs the mapping. -/
theorem claim_C8_witness :
    VirtualMemory.map kW8 7 1024 = Halt.panicked "non-contiguous" ∧
    ∃ k', VirtualMemory.map kW8 7 1 = Halt.ok (some 1, k') ∧
      ∀ i, i < 1 → k'.pt.entry (1 + i) = some (7 + i) := by
  constructor
  · exact (claim_C8 kW8 7 1024 1 ffW8a).1 ⟨1023, by omega, by decide⟩
  · exact (claim_C8 kW8 7 1 1 ffW8b).2 (by intro i hi; interval_cases i; decide)

/-! ## C9: bounds of the virtual free-space search -/

/-- C9: the search scans from page 1 upward, so a returned start is at
least 1 (page 0 is never in a returned run) and its run fits below the
`0xFFFFF` bound; when even the first candidate cannot fit
(`pages ≥ 0xFFFFF`), the search reports exhaustion as `none` rather than
halting. -/
theorem claim_C9 (pt : Dir) (pages : Nat) :
    (∀ p, VirtualMemory.find_free pt pages = some p →
      1 ≤ p ∧ p + pages ≤ 0xFFFFF) ∧
    (0xFFFFF ≤ pages → VirtualMemory.find_free pt pages = none) := by
  constructor
  · intro p hp
    exact VirtualMemory.find_free_some_bounds pt pages p hp
  · intro hbig
    unfold VirtualMemory.find_free
    exact VirtualMemory.find_free_loop_none pt pages 1 0 (by omega) (by omega)

/-- C9 witness. -/
theorem claim_C9_witness :
    (1 ≤ 1 ∧ 1 + 4 ≤ 0xFFFFF) ∧
    VirtualMemory.find_free (fun _ => none) 0xFFFFF = none :=
  ⟨(claim_C9 (fun _ => none) 4).1 1 (VirtualMemory.find_free_empty 4 (by omega)),
   (claim_C9 (fun _ => none) 0xFFFFF).2 (by omega)⟩

/-! ## C7: free panics on unmapped pages, else releases one frame per page -/

/-- C7: `free(page_start, count)` halts with an "already freed" panic when
some page of the range has an absent covering table or an already-free
entry; otherwise it unmaps exactly the entries of the range and marks
exactly the frames those entries held free, one frame per page, leaving
every other page entry and frame status untouched. -/
theorem claim_C7 (k : Kernel) (page_start pages : Nat) :
    ((∃ i, i < pages ∧ k.pt.entry (page_start + i) = none) →
      VirtualMemory.free k page_start pages = Halt.panicked "already freed") ∧
    (∀ fr : Nat → Nat,
      (∀ i, i < pages → k.pt.entry (page_start + i) = some (fr i)) →
      ∃ k', VirtualMemory.free k page_start pages = Halt.ok k' ∧
        (∀ i, i < pages → k'.pt.entry (page_start + i) = none) ∧
        (∀ q, (∀ i, i < pages → q ≠ page_start + i) →
          k'.pt.entry q = k.pt.entry q) ∧
        (∀ i, i < pages → k'.pm.status (fr i) = true) ∧
        (∀ x, (∀ i, i < pages → fr i ≠ x) → k'.pm.status x = k.pm.status x) ∧
        k'.pm.limit = k.pm.limit) :=
  ⟨fun h => VirtualMemory.free_loop_panics k page_start pages h,
   fun fr h => VirtualMemory.free_loop_ok k page_start pages fr h⟩

/-- C7 witness: freeing the unmapped page 2 panics; freeing the mapped page
1 succeeds and releases frame 5. -/
theorem claim_C7_witness :
    VirtualMemory.free kC7 2 1 = Halt.panicked "already freed" ∧
    ∃ k', VirtualMemory.free kC7 1 1 = Halt.ok k' ∧ k'.pm.status 5 = true := by
  constructor
  · exact (claim_C7 kC7 2 1).1 ⟨0, by omega, by decide⟩
  · obtain ⟨k', h1, _, _, hst, _, _⟩ :=
      (claim_C7 kC7 1 1).2 (fun _ => 5) (by intro i hi; interval_cases i; decide)
    exact ⟨k', h1, hst 0 (by omega)⟩

/-! ## C4: allocate_contiguous pairs pages and frames in lockstep -/

/-- C4: whenever `allocate_contiguous(n)` succeeds with
`(page_start, frame_start)`, every page `page_start + i` (`i < n`) is
mapped to the corresponding frame `frame_start + i`. -/
theorem claim_C4 (k : Kernel) (n p f : Nat) (k' : Kernel)
    (h : VirtualMemory.allocate_contiguous k n = Halt.ok (some (p, f), k')) :
    ∀ i, i < n → k'.pt.entry (p + i) = some (f + i) := by
  unfold VirtualMemory.allocate_contiguous at h
  cases hpm : k.pm.find_free n with
  | none =>
    simp only [hpm] at h
    simp at h
  | some f0 =>
    simp only [hpm] at h
    cases hmap : VirtualMemory.map ⟨k.pt, k.pm.mark_used f0 n⟩ f0 n with
    | ok pr =>
      obtain ⟨op, k2⟩ := pr
      cases op with
      | none =>
        simp only [hmap] at h
        simp at h
      | some p0 =>
        simp only [hmap] at h
        rw [Halt.ok.injEq, Prod.mk.injEq, Option.some.injEq, Prod.mk.injEq] at h
        obtain ⟨⟨rfl, rfl⟩, rfl⟩ := h
        obtain ⟨hf, pt', hloop, hk⟩ :=
          VirtualMemory.map_ok_some_elim _ _ _ _ _ hmap
        subst hk
        intro i hi
        exact VirtualMemory.map_loop_entries _ _ _ _ _ hloop i hi
    | panicked msg =>
      simp only [hmap] at h
      simp at h

/-- C4 witness. -/
theorem claim_C4_witness : kSpost.pt.entry (1 + 0) = some (0 + 0) :=
  claim_C4 kS 1 1 0 kSpost allocS 0 (by omega)

/-! ## C3: failure modes of allocate_contiguous -/

/-- C3: if the frame search fails, `allocate_contiguous` returns `none`
with the state untouched; if frames are found and marked used but the
virtual search is exhausted, it returns `none` with the frames still
marked used and the page tables untouched (no rollback). -/
theorem claim_C3 (k : Kernel) (pages : Nat) :
    (k.pm.find_free pages = none →
      VirtualMemory.allocate_contiguous k pages = Halt.ok (none, k)) ∧
    (∀ f, k.pm.find_free pages = some f →
      VirtualMemory.find_free k.pt pages = none →
      VirtualMemory.allocate_contiguous k pages =
        Halt.ok (none, ⟨k.pt, k.pm.mark_used f pages⟩)) := by
  constructor
  · intro h
    simp only [VirtualMemory.allocate_contiguous, h]
  · intro f hpm hff
    simp only [VirtualMemory.allocate_contiguous, hpm, VirtualMemory.map, hff]

/-- C3 witness: with no tracked frames the allocator fails without touching
anything; with `0xFFFFF` frames requested the frame search succeeds, the
virtual address space is exhausted, and the frames stay marked used. -/
theorem claim_C3_witness :
    VirtualMemory.allocate_contiguous kC3a 1 = Halt.ok (none, kC3a) ∧
    VirtualMemory.allocate_contiguous kC3b 0xFFFFF =
      Halt.ok (none, ⟨kC3b.pt, kC3b.pm.mark_used 0 0xFFFFF⟩) :=
  ⟨(claim_C3 kC3a 1).1 rfl,
   (claim_C3 kC3b 0xFFFFF).2 0 (pmAll_find_free 0xFFFFF 0xFFFFF (by omega))
     (by
       unfold VirtualMemory.find_free
       exact VirtualMemory.find_free_loop_none _ _ _ _ (by omega) (by omega))⟩

/-! ## C10: the heap adapter never reads the alignment -/

/-- C10: `alloc` is independent of the layout's alignment (same size, same
state, same result for any two alignments), and every address it returns
is a multiple of 4096 (the null sentinel 0 included), so alignments above
one page are not honoured. -/
theorem claim_C10 (k : Kernel) (size a1 a2 : Nat) :
    VirtualMemory.alloc k size a1 = VirtualMemory.alloc k size a2 ∧
    (∀ addr k', VirtualMemory.alloc k size a1 = Halt.ok (addr, k') →
      addr % 4096 = 0) := by
  refine ⟨rfl, ?_⟩
  intro addr k' h
  unfold VirtualMemory.alloc at h
  split at h
  · rename_i k2 heq
    rw [Halt.ok.injEq, Prod.mk.injEq] at h
    obtain ⟨rfl, _⟩ := h
    rfl
  · rename_i p k2 heq
    rw [Halt.ok.injEq, Prod.mk.injEq] at h
    obtain ⟨rfl, _⟩ := h
    rw [shl12_eq]
    simp [Nat.mul_mod_left]
  · cases h

/-- C10 witness. -/
theorem claim_C10_witness :
    VirtualMemory.alloc kC3a 5 1 = VirtualMemory.alloc kC3a 5 4096 ∧
    (0 : Nat) % 4096 = 0 :=
  ⟨(claim_C10 kC3a 5 1 4096).1, (claim_C10 kC3a 5 1 4096).2 0 kC3a rfl⟩

/-! ## C6: the heap adapter rounds to pages and scales addresses -/

/-- C6: `alloc` rounds the byte size up to whole pages by ceiling division
(`((size-1) >> 12) + 1 = ⌈size / 4096⌉` for nonzero sizes), forwards that
count to `allocate`, scales a successful page index by 4096 and returns
the null sentinel 0 on failure; `dealloc` reverses the address-to-page
computation on a page-aligned pointer and forwards the same page count to
`free`. -/
theorem claim_C6 (k : Kernel) (size align ptrp : Nat) (hsize : 1 ≤ size) :
    ((size - 1) >>> 12) + 1 = (size + 4096 - 1) / 4096 ∧
    (∀ p k', VirtualMemory.allocate k (((size - 1) >>> 12) + 1) =
        Halt.ok (some p, k') →
      VirtualMemory.alloc k size align = Halt.ok (p * 4096, k')) ∧
    (∀ k', VirtualMemory.allocate k (((size - 1) >>> 12) + 1) =
        Halt.ok (none, k') →
      VirtualMemory.alloc k size align = Halt.ok (0, k')) ∧
    (1 ≤ ptrp →
      VirtualMemory.dealloc k (ptrp * 4096) size align =
        VirtualMemory.free k ptrp (((size - 1) >>> 12) + 1)) := by
  refine ⟨?_, ?_, ?_, ?_⟩
  · rw [shr12_eq]
    omega
  · intro p k' h
    simp only [VirtualMemory.alloc, h, shl12_eq]
  · intro k' h
    simp only [VirtualMemory.alloc, h]
  · intro hp
    unfold VirtualMemory.dealloc
    have hpage : ((ptrp * 4096 - 1) >>> 12) + 1 = ptrp := by
      rw [shr12_eq]
      omega
    rw [hpage]

/-- C6 witness: a size of 5 bytes becomes one page; a successful
allocation at page 1 yields the byte address 4096, and deallocating it
frees page 1 with the same one-page count. -/
theorem claim_C6_witness :
    ((5 - 1) >>> 12) + 1 = (5 + 4096 - 1) / 4096 ∧
    VirtualMemory.alloc kS 5 1 = Halt.ok (1 * 4096, kSpost) ∧
    VirtualMemory.dealloc kS (1 * 4096) 5 1 =
      VirtualMemory.free kS 1 (((5 - 1) >>> 12) + 1) :=
  ⟨(claim_C6 kS 5 1 1 (by omega)).1,
   (claim_C6 kS 5 1 1 (by omega)).2.1 1 kSpost allocS',
   (claim_C6 kS 5 1 1 (by omega)).2.2.2 (by omega)⟩

/-! ## Walking the search over a block of installed free entries -/

namespace VirtualMemory

theorem find_free_loop_walk (pt : Dir) (pages s c k : Nat)
    (hb : s + pages ≤ 0xFFFFF)
    (hfree : ∀ j, j < k → ∃ t, pt ((s + c + j) >>> 10) = some t ∧
      t ((s + c + j) &&& 0x3FF) = none) :
    find_free_loop pt pages s c = find_free_loop pt pages s (c + k) := by
  induction k generalizing c with
  | zero => rfl
  | succ m ih =>
    by_cases hc : c < pages
    · obtain ⟨t, hpt, he⟩ := hfree 0 (by omega)
      rw [Nat.add_zero] at hpt he
      rw [find_free_loop_free pt pages s c t hc hb hpt he]
      have hshift : ∀ j, j < m → ∃ t, pt ((s + (c + 1) + j) >>> 10) = some t ∧
          t ((s + (c + 1) + j) &&& 0x3FF) = none := by
        intro j hj
        have := hfree (j + 1) (by omega)
        rwa [show s + c + (j + 1) = s + (c + 1) + j by omega] at this
      rw [ih (c + 1) hshift]
      congr 1
      omega
    · rw [find_free_loop_exit _ _ _ _ (by omega),
        find_free_loop_exit _ _ _ _ (by omega)]

end VirtualMemory

/-! ## C1: the fast-path 1024-page skip is not table-aligned -/

/-- `ptW8` with slot 0 additionally installed as an all-free table: the
page-level content (free/used per page) is identical to `ptW8`. -/
def ptC1' : Dir := fun d => if d = 0 then some (fun _ => none) else ptW8 d

theorem ffC1' : VirtualMemory.find_free ptC1' 1024 = some 1025 := by
  unfold VirtualMemory.find_free
  rw [VirtualMemory.find_free_loop_walk ptC1' 1024 1 0 1023 (by omega) ?hw1]
  case hw1 =>
    intro j hj
    have h1 : (1 + 0 + j) >>> 10 = 0 := by rw [shr10_eq] <;> omega
    refine ⟨fun _ => none, ?_, rfl⟩
    rw [h1] <;> rfl
  rw [VirtualMemory.find_free_loop_used ptC1' 1024 1 1023
    (fun i => if i = 0 then some 9 else none) 9 (by omega) (by omega) ?hpt ?he]
  case hpt =>
    have h1 : (1 + 1023) >>> 10 = 1 := by rw [shr10_eq] <;> omega
    rw [h1] <;> rfl
  case he =>
    have h2 : (1 + 1023) &&& 0x3FF = 0 := by rw [and1023_eq] <;> omega
    rw [h2] <;> rfl
  rw [VirtualMemory.find_free_loop_walk ptC1' 1024 1025 0 1023 (by omega) ?hw2]
  case hw2 =>
    intro j hj
    have h1 : (1025 + 0 + j) >>> 10 = 1 := by rw [shr10_eq] <;> omega
    have h2 : (1025 + 0 + j) &&& 0x3FF = j + 1 := by rw [and1023_eq] <;> omega
    refine ⟨fun i => if i = 0 then some 9 else none, ?_, ?_⟩
    · rw [h1] <;> rfl
    · rw [h2]
      simp
  rw [VirtualMemory.find_free_loop_absent ptC1' 1024 1025 1023 (by omega)
    (by omega) ?habs]
  case habs =>
    have h1 : (1025 + 1023) >>> 10 = 2 := by rw [shr10_eq] <;> omega
    rw [h1] <;> rfl
  rw [VirtualMemory.find_free_loop_exit _ _ _ _ (by omega)]

/-- C1: the fast-path skip is not behaviorally transparent.  On `ptW8`
(slot 0 never installed, page 1024 mapped in the installed neighbouring
slot 1) the search for 1024 pages takes the `consecutive_pages += 1024`
fast path and returns start 1, whose run `[1, 1025)` includes the mapped
page 1024; on `ptC1'`, the same state except that slot 0 is installed with
all entries explicitly free (identical page-level content), the search
returns 1025.  This refutes the claim that the fast path never yields a
run containing a mapped page and that the two searches agree. -/
theorem claim_C1 :
    VirtualMemory.find_free ptW8 1024 = some 1 ∧
    ptW8.entry 1024 = some 9 ∧ 1 ≤ 1024 ∧ 1024 < 1 + 1024 ∧
    VirtualMemory.find_free ptC1' 1024 = some 1025 ∧
    (∀ q, ptC1'.entry q = ptW8.entry q) := by
  refine ⟨ffW8a, by decide, by omega, by omega, ffC1', ?_⟩
  intro q
  unfold Dir.entry
  by_cases h0 : q >>> 10 = 0
  · rw [h0]
    show (match ptC1' 0 with | none => none | some t => t (q &&& 0x3FF)) =
      (match ptW8 0 with | none => none | some t => t (q &&& 0x3FF))
    rfl
  · have : ptC1' (q >>> 10) = ptW8 (q >>> 10) := by
      unfold ptC1'
      rw [if_neg h0]
    rw [this]

/-! ## C2: map_physical_region under-maps when offset + size crosses -/

/-- Page tables after mapping frame 0x400 to page 1 starting from empty. -/
def ptC2post : Dir :=
  ((Dir.table_create (fun _ => none) (1 >>> 10)).2).setEntry (1 >>> 10) (1 &&& 0x3FF)
    (some 0x400)

def kC2post : Kernel := ⟨ptC2post, kC3a.pm⟩

/-- C2: mapping the physical range `[0x400FFF, 0x401001)` (2 bytes, above
the identity-mapped threshold, sub-page offset 0xFFF) maps only
`2.div_ceil(4096) = 1` page — the one covering frame 0x400 — and returns
virtual address 0x1FFF, although the page-aligned range covering the
request spans the two frames 0x400 and 0x401: the last requested byte
falls into virtual page 2, which is left unmapped. -/
theorem claim_C2 :
    VirtualMemory.map_physical_region kC3a 0x400FFF 2 = Halt.ok (0x1FFF, kC2post) ∧
    kC2post.pt.entry 1 = some 0x400 ∧
    kC2post.pt.entry 2 = none ∧
    (0x1FFF + 2 - 1) >>> 12 = 2 ∧
    (0x400FFF + 2 - 1) / 4096 = 0x401 ∧ 0x400FFF / 4096 = 0x400 := by
  refine ⟨?_, by decide, by decide, by decide, by decide, by decide⟩
  have hm : VirtualMemory.map kC3a 0x400 1 = Halt.ok (some 1, kC2post) := by
    show VirtualMemory.map ⟨(fun _ => none), kC3a.pm⟩ 0x400 1 = _
    exact map_eval _ kC3a.pm 1 0x400 1 (VirtualMemory.find_free_empty 1 (by omega))
      ptC2post rfl
  unfold VirtualMemory.map_physical_region
  rw [if_neg (by omega)]
  have harg1 : (0x400FFF : Nat) / GRANULARITY = 0x400 := by norm_num [GRANULARITY]
  have harg2 : ((2 : Nat) + GRANULARITY - 1) / GRANULARITY = 1 := by
    norm_num [GRANULARITY]
  rw [harg1, harg2, hm] <;> rfl

/-! ## Further search-loop lemmas towards the allocate/free round trip -/

namespace VirtualMemory

/-- The returned start never lies before the scan position. -/
theorem find_free_loop_mono (pt : Dir) (pages : Nat) :
    ∀ N s c p, 0x300000 - (2 * s + c) ≤ N →
      find_free_loop pt pages s c = some p → s ≤ p := by
  intro N
  induction N with
  | zero =>
    intro s c p hm hp
    by_cases hlt : c < pages
    · by_cases hb : pages + s > 0xFFFFF
      · rw [find_free_loop_none pt pages s c hlt (by omega)] at hp
        cases hp
      · omega
    · rw [find_free_loop_exit pt pages s c (by omega)] at hp
      cases hp
      omega
  | succ N ih =>
    intro s c p hm hp
    by_cases hlt : c < pages
    · by_cases hb : s + pages > 0xFFFFF
      · rw [find_free_loop_none pt pages s c hlt hb] at hp
        cases hp
      · have hb' : s + pages ≤ 0xFFFFF := by omega
        cases hpt : pt ((s + c) >>> 10) with
        | none =>
          rw [find_free_loop_absent pt pages s c hlt hb' hpt] at hp
          exact ih s (c + 1024) p (by omega) hp
        | some t =>
          cases he : t ((s + c) &&& 0x3FF) with
          | none =>
            rw [find_free_loop_free pt pages s c t hlt hb' hpt he] at hp
            exact ih s (c + 1) p (by omega) hp
          | some f =>
            rw [find_free_loop_used pt pages s c t f hlt hb' hpt he] at hp
            have := ih (s + 1 + c) 0 p (by omega) hp
            omega
    · rw [find_free_loop_exit pt pages s c (by omega)] at hp
      cases hp
      omega

/-- A start other than the scan position is preceded by a used page. -/
theorem find_free_loop_pred_used (pt : Dir) (pages : Nat) :
    ∀ N s c p, 0x300000 - (2 * s + c) ≤ N →
      find_free_loop pt pages s c = some p →
      p = s ∨ pt.entry (p - 1) ≠ none := by
  intro N
  induction N with
  | zero =>
    intro s c p hm hp
    by_cases hlt : c < pages
    · by_cases hb : s + pages > 0xFFFFF
      · rw [find_free_loop_none pt pages s c hlt hb] at hp
        cases hp
      · omega
    · rw [find_free_loop_exit pt pages s c (by omega)] at hp
      cases hp
      left
      rfl
  | succ N ih =>
    intro s c p hm hp
    by_cases hlt : c < pages
    · by_cases hb : s + pages > 0xFFFFF
      · rw [find_free_loop_none pt pages s c hlt hb] at hp
        cases hp
      · have hb' : s + pages ≤ 0xFFFFF := by omega
        cases hpt : pt ((s + c) >>> 10) with
        | none =>
          rw [find_free_loop_absent pt pages s c hlt hb' hpt] at hp
          exact ih s (c + 1024) p (by omega) hp
        | some t =>
          cases he : t ((s + c) &&& 0x3FF) with
          | none =>
            rw [find_free_loop_free pt pages s c t hlt hb' hpt he] at hp
            exact ih s (c + 1) p (by omega) hp
          | some f =>
            rw [find_free_loop_used pt pages s c t f hlt hb' hpt he] at hp
            rcases ih (s + 1 + c) 0 p (by omega) hp with h | h
            · right
              have hpc : p - 1 = s + c := by omega
              rw [hpc]
              unfold Dir.entry
              simp [hpt, he]
            · right
              exact h
    · rw [find_free_loop_exit pt pages s c (by omega)] at hp
      cases hp
      left
      rfl

/-- From any `consecutive_pages`, a scan whose whole candidate run is free
accepts the current start. -/
theorem find_free_loop_accept (pt : Dir) (pages s : Nat)
    (hfree : ∀ j, j < pages → pt.entry (s + j) = none)
    (hb : s + pages ≤ 0xFFFFF) :
    ∀ N c, 0x300000 - (2 * s + c) ≤ N →
      find_free_loop pt pages s c = some s := by
  intro N
  induction N with
  | zero =>
    intro c hm
    by_cases hlt : c < pages
    · omega
    · exact find_free_loop_exit pt pages s c (by omega)
  | succ N ih =>
    intro c hm
    by_cases hlt : c < pages
    · cases hpt : pt ((s + c) >>> 10) with
      | none =>
        rw [find_free_loop_absent pt pages s c hlt hb hpt]
        exact ih (c + 1024) (by omega)
      | some t =>
        have he : t ((s + c) &&& 0x3FF) = none := by
          have := hfree c hlt
          unfold Dir.entry at this
          rwa [hpt] at this
        rw [find_free_loop_free pt pages s c t hlt hb hpt he]
        exact ih (c + 1) (by omega)
    · exact find_free_loop_exit pt pages s c (by omega)

/-- A scan that does not accept its current start passes through the state
just after some used page on the way to its result. -/
theorem find_free_loop_restart_extract (pt : Dir) (pages p : Nat) :
    ∀ N s c, 0x300000 - (2 * s + c) ≤ N →
      find_free_loop pt pages s c = some p → p ≠ s →
      ∃ h, s + c ≤ h ∧ h < s + pages ∧ pt.entry h ≠ none ∧ h + 1 ≤ p ∧
        find_free_loop pt pages s c = find_free_loop pt pages (h + 1) 0 := by
  intro N
  induction N with
  | zero =>
    intro s c hm hp hne
    by_cases hlt : c < pages
    · by_cases hb : s + pages > 0xFFFFF
      · rw [find_free_loop_none pt pages s c hlt hb] at hp
        cases hp
      · omega
    · rw [find_free_loop_exit pt pages s c (by omega)] at hp
      cases hp
      exact absurd rfl hne
  | succ N ih =>
    intro s c hm hp hne
    by_cases hlt : c < pages
    · by_cases hb : s + pages > 0xFFFFF
      · rw [find_free_loop_none pt pages s c hlt hb] at hp
        cases hp
      · have hb' : s + pages ≤ 0xFFFFF := by omega
        cases hpt : pt ((s + c) >>> 10) with
        | none =>
          have hstep := find_free_loop_absent pt pages s c hlt hb' hpt
          rw [hstep] at hp
          obtain ⟨h, h1, h2, h3, h4, h5⟩ := ih s (c + 1024) (by omega) hp hne
          exact ⟨h, by omega, h2, h3, h4, by rw [hstep, h5]⟩
        | some t =>
          cases he : t ((s + c) &&& 0x3FF) with
          | none =>
            have hstep := find_free_loop_free pt pages s c t hlt hb' hpt he
            rw [hstep] at hp
            obtain ⟨h, h1, h2, h3, h4, h5⟩ := ih s (c + 1) (by omega) hp hne
            exact ⟨h, by omega, h2, h3, h4, by rw [hstep, h5]⟩
          | some f =>
            have hstep := find_free_loop_used pt pages s c t f hlt hb' hpt he
            rw [hstep] at hp
            have harr : s + 1 + c = s + c + 1 := by omega
            refine ⟨s + c, by omega, by omega, ?_, ?_, by rw [hstep, harr]⟩
            · unfold Dir.entry
              simp [hpt, he]
            · have := find_free_loop_mono pt pages 0x300000 (s + 1 + c) 0 p
                (by omega) hp
              omega
    · rw [find_free_loop_exit pt pages s c (by omega)] at hp
      cases hp
      exact absurd rfl hne

end VirtualMemory

namespace VirtualMemory

/-- Key pairing lemma: two directories with identical page-level content,
where the second installs at least the tables of the first (the extra ones
being all-free), drive the search identically from any state whose
position is table-aligned or sits under a table installed in the first.
The alignment premise is what the buggy unaligned fast-path skip would
violate at the initial position 1; every position reached from a safe one
stays safe. -/
theorem find_free_loop_pair (pt0 pt2 : Dir)
    (HA : ∀ q, pt2.entry q = pt0.entry q)
    (HB : ∀ d, pt2 d = none → pt0 d = none) (pages : Nat) :
    ∀ N s c, 0x300000 - (2 * s + c) ≤ N →
      ((s + c) % 1024 ≠ 0 → pt0 ((s + c) >>> 10) ≠ none) →
      find_free_loop pt0 pages s c = find_free_loop pt2 pages s c := by
  intro N
  induction N with
  | zero =>
    intro s c hm halign
    by_cases hlt : c < pages
    · by_cases hb : s + pages > 0xFFFFF
      · rw [find_free_loop_none pt0 pages s c hlt hb,
          find_free_loop_none pt2 pages s c hlt hb]
      · omega
    · rw [find_free_loop_exit pt0 pages s c (by omega),
        find_free_loop_exit pt2 pages s c (by omega)]
  | succ N ih =>
    intro s c hm halign
    by_cases hlt : c < pages
    · by_cases hb : s + pages > 0xFFFFF
      · rw [find_free_loop_none pt0 pages s c hlt hb,
          find_free_loop_none pt2 pages s c hlt hb]
      · have hb' : s + pages ≤ 0xFFFFF := by omega
        cases h2 : pt2 ((s + c) >>> 10) with
        | none =>
          have h0 : pt0 ((s + c) >>> 10) = none := HB _ h2
          have hx : (s + c) % 1024 = 0 := by
            by_contra hx
            exact (halign hx) h0
          rw [find_free_loop_absent pt0 pages s c hlt hb' h0,
            find_free_loop_absent pt2 pages s c hlt hb' h2]
          refine ih s (c + 1024) (by omega) ?_
          intro hmod
          exfalso
          omega
        | some t2 =>
          cases h0 : pt0 ((s + c) >>> 10) with
          | none =>
            have hx : (s + c) % 1024 = 0 := by
              by_contra hx
              exact (halign hx) h0
            have hwalk : find_free_loop pt2 pages s c =
                find_free_loop pt2 pages s (c + 1024) := by
              apply find_free_loop_walk pt2 pages s c 1024 hb'
              intro j hj
              have hsl : (s + c + j) >>> 10 = (s + c) >>> 10 := by
                rw [shr10_eq, shr10_eq]
                omega
              refine ⟨t2, by rw [hsl, h2], ?_⟩
              have hent := HA (s + c + j)
              unfold Dir.entry at hent
              rw [hsl] at hent
              simp only [h2, h0] at hent
              exact hent
            rw [find_free_loop_absent pt0 pages s c hlt hb' h0, hwalk]
            refine ih s (c + 1024) (by omega) ?_
            intro hmod
            exfalso
            omega
          | some t0 =>
            have hent := HA (s + c)
            unfold Dir.entry at hent
            simp only [h2, h0] at hent
            cases he0 : t0 ((s + c) &&& 0x3FF) with
            | none =>
              rw [find_free_loop_free pt0 pages s c t0 hlt hb' h0 he0,
                find_free_loop_free pt2 pages s c t2 hlt hb' h2
                  (hent.trans he0)]
              refine ih s (c + 1) (by omega) ?_
              intro hmod
              have hsl : (s + (c + 1)) >>> 10 = (s + c) >>> 10 := by
                rw [shr10_eq, shr10_eq]
                omega
              rw [hsl, h0]
              simp
            | some f =>
              rw [find_free_loop_used pt0 pages s c t0 f hlt hb' h0 he0,
                find_free_loop_used pt2 pages s c t2 f hlt hb' h2
                  (hent.trans he0)]
              refine ih (s + 1 + c) 0 (by omega) ?_
              intro hmod
              have hsl : (s + 1 + c + 0) >>> 10 = (s + c) >>> 10 := by
                rw [shr10_eq, shr10_eq]
                omega
              rw [hsl, h0]
              simp
    · rw [find_free_loop_exit pt0 pages s c (by omega),
        find_free_loop_exit pt2 pages s c (by omega)]

end VirtualMemory

namespace VirtualMemory

theorem entry_slot_installed (pt : Dir) (q : Nat) (h : pt.entry q ≠ none) :
    pt (q >>> 10) ≠ none := by
  intro hq
  apply h
  unfold Dir.entry
  rw [hq]

/-- From an aligned-safe state with a used page `q2` ahead of the position
and inside the candidate window, the scan restarts just past some used
page at or before `q2`. -/
theorem find_free_loop_hit (pt : Dir) (pages q2 : Nat)
    (hq2 : pt.entry q2 ≠ none) :
    ∀ N t c, q2 + 1 - (t + c) ≤ N → t + c ≤ q2 → q2 < t + pages →
      t + pages ≤ 0xFFFFF →
      ((t + c) % 1024 ≠ 0 → pt ((t + c) >>> 10) ≠ none) →
      ∃ h, t + c ≤ h ∧ h ≤ q2 ∧ pt.entry h ≠ none ∧
        find_free_loop pt pages t c = find_free_loop pt pages (h + 1) 0 := by
  have hq2slot : pt (q2 >>> 10) ≠ none := entry_slot_installed pt q2 hq2
  intro N
  induction N with
  | zero =>
    intro t c hm hle _ _ _
    omega
  | succ N ih =>
    intro t c hm hle hwin hbound halign
    have hlt : c < pages := by omega
    cases hpt : pt ((t + c) >>> 10) with
    | none =>
      have hx : (t + c) % 1024 = 0 := by
        by_contra hx
        exact (halign hx) hpt
      have hfar : t + c + 1024 ≤ q2 := by
        by_contra hnear
        have hsl : q2 >>> 10 = (t + c) >>> 10 := by
          rw [shr10_eq, shr10_eq]
          omega
        rw [hsl] at hq2slot
        exact hq2slot hpt
      rw [find_free_loop_absent pt pages t c hlt (by omega) hpt]
      obtain ⟨h, h1, h2, h3, h4⟩ := ih t (c + 1024) (by omega) (by omega)
        hwin hbound (by intro hmod; exfalso; omega)
      exact ⟨h, by omega, h2, h3, h4⟩
    | some tt =>
      cases he : tt ((t + c) &&& 0x3FF) with
      | none =>
        have hne : t + c ≠ q2 := by
          intro heq
          apply hq2
          rw [← heq]
          unfold Dir.entry
          simp [hpt, he]
        rw [find_free_loop_free pt pages t c tt hlt (by omega) hpt he]
        obtain ⟨h, h1, h2, h3, h4⟩ := ih t (c + 1) (by omega) (by omega)
          hwin hbound (by
            intro hmod
            have hsl : (t + (c + 1)) >>> 10 = (t + c) >>> 10 := by
              rw [shr10_eq, shr10_eq]
              omega
            rw [hsl, hpt]
            simp)
        exact ⟨h, by omega, h2, h3, h4⟩
      | some f =>
        have harr : t + 1 + c = (t + c) + 1 := by omega
        refine ⟨t + c, by omega, hle, ?_, ?_⟩
        · unfold Dir.entry
          simp [hpt, he]
        · rw [find_free_loop_used pt pages t c tt f hlt (by omega) hpt he,
            harr]

/-- Climbing: a scan from any aligned-safe start at or below a used page
`q2` within reach eventually coincides with the scan from `q2 + 1`. -/
theorem find_free_loop_climb (pt : Dir) (pages q2 : Nat)
    (hq2 : pt.entry q2 ≠ none) (hq2n : q2 ≤ pages)
    (hbound : q2 + 1 + pages ≤ 0xFFFFF) :
    ∀ M t, q2 + 1 - t ≤ M → 1 ≤ t → t ≤ q2 + 1 →
      (t % 1024 ≠ 0 → pt (t >>> 10) ≠ none) →
      find_free_loop pt pages t 0 = find_free_loop pt pages (q2 + 1) 0 := by
  intro M
  induction M with
  | zero =>
    intro t hm h1 hle _
    have : t = q2 + 1 := by omega
    rw [this]
  | succ M ih =>
    intro t hm h1 hle halign
    by_cases heq : t = q2 + 1
    · rw [heq]
    · have ht : t ≤ q2 := by omega
      obtain ⟨h, hh1, hh2, hh3, hh4⟩ :=
        find_free_loop_hit pt pages q2 hq2 (q2 + 1) t 0 (by omega) (by omega)
          (by omega) (by omega) (by simpa using halign)
      rw [hh4]
      refine ih (h + 1) (by omega) (by omega) (by omega) ?_
      intro hmod
      have hsl : (h + 1) >>> 10 = h >>> 10 := by
        rw [shr10_eq, shr10_eq]
        omega
      rw [hsl]
      exact entry_slot_installed pt h hh3

end VirtualMemory

namespace VirtualMemory

/-- Joint analysis of the two searches from the unaligned seed at page 1
over a pair of related directories whose slot 0 is absent in both.  The
scans proceed with positions offset by at most one (the second walking
installed all-free tables the first jumps over); whenever the second scan
restarts, both executions are funnelled through the state just past the
first scan's own restart page and finish identically. -/
theorem find_free_loop_chain (pt0 pt2 : Dir) (pages p : Nat)
    (HA : ∀ q, pt2.entry q = pt0.entry q)
    (HB : ∀ d, pt2 d = none → pt0 d = none)
    (hnp : p ≠ 1) (hbp : p + pages ≤ 0xFFFFF) (hp1 : 1 ≤ p) :
    ∀ N cA cB, pages - cB ≤ N → cA % 1024 = 0 → (cB = cA ∨ cB + 1 = cA) →
      find_free_loop pt0 pages 1 cA = some p →
      find_free_loop pt2 pages 1 cB = some p := by
  have hb1 : 1 + pages ≤ 0xFFFFF := by omega
  intro N
  induction N with
  | zero =>
    intro cA cB hm hmod hd hl0
    have hcA : cA < pages := by
      by_contra hge
      rw [find_free_loop_exit pt0 pages 1 cA (by omega)] at hl0
      exact hnp (by cases hl0; rfl)
    omega
  | succ N ih =>
    intro cA cB hm hmod hd hl0
    have hcA : cA < pages := by
      by_contra hge
      rw [find_free_loop_exit pt0 pages 1 cA (by omega)] at hl0
      exact hnp (by cases hl0; rfl)
    rcases hd with hd | hd
    · -- states equal
      subst hd
      cases h0 : pt0 ((1 + cB) >>> 10) with
      | some t0 =>
        have hpair := find_free_loop_pair pt0 pt2 HA HB pages 0x300000 1 cB
          (by omega) (by intro _; rw [h0]; simp)
        rw [← hpair]
        exact hl0
      | none =>
        cases h2 : pt2 ((1 + cB) >>> 10) with
        | none =>
          rw [find_free_loop_absent pt0 pages 1 cB hcA hb1 h0] at hl0
          rw [find_free_loop_absent pt2 pages 1 cB hcA hb1 h2]
          exact ih (cB + 1024) (cB + 1024) (by omega) (by omega) (Or.inl rfl) hl0
        | some t2 =>
          rw [find_free_loop_absent pt0 pages 1 cB hcA hb1 h0] at hl0
          have hwalk : find_free_loop pt2 pages 1 cB =
              find_free_loop pt2 pages 1 (cB + 1023) := by
            apply find_free_loop_walk pt2 pages 1 cB 1023 hb1
            intro j hj
            have hsl : (1 + cB + j) >>> 10 = (1 + cB) >>> 10 := by
              rw [shr10_eq, shr10_eq]
              omega
            refine ⟨t2, by rw [hsl, h2], ?_⟩
            have hent := HA (1 + cB + j)
            unfold Dir.entry at hent
            rw [hsl] at hent
            simp only [h2, h0] at hent
            exact hent
          by_cases hcw : cB + 1023 < pages
          · rw [hwalk]
            exact ih (cB + 1024) (cB + 1023) (by omega) (by omega)
              (Or.inr (by omega)) hl0
          · exfalso
            rw [find_free_loop_exit pt0 pages 1 (cB + 1024) (by omega)] at hl0
            exact hnp (by cases hl0; rfl)
    · -- second scan one step behind, its position aligned
      have hmodB : (1 + cB) % 1024 = 0 := by omega
      cases h2 : pt2 ((1 + cB) >>> 10) with
      | none =>
        have h0B : pt0 ((1 + cB) >>> 10) = none := HB _ h2
        have hsl : (1 + cA) >>> 10 = (1 + cB) >>> 10 := by
          rw [shr10_eq, shr10_eq]
          omega
        rw [find_free_loop_absent pt0 pages 1 cA hcA hb1 (by rw [hsl]; exact h0B)]
          at hl0
        rw [find_free_loop_absent pt2 pages 1 cB (by omega) hb1 h2]
        exact ih (cA + 1024) (cB + 1024) (by omega) (by omega)
          (Or.inr (by omega)) hl0
      | some t2 =>
        cases he2 : t2 ((1 + cB) &&& 0x3FF) with
        | none =>
          rw [find_free_loop_free pt2 pages 1 cB t2 (by omega) hb1 h2 he2]
          exact ih cA (cB + 1) (by omega) hmod (Or.inl (by omega)) hl0
        | some f =>
          have hused : find_free_loop pt2 pages 1 cB =
              find_free_loop pt2 pages (1 + cB + 1) 0 := by
            have := find_free_loop_used pt2 pages 1 cB t2 f (by omega) hb1 h2 he2
            rwa [show 1 + 1 + cB = 1 + cB + 1 by omega] at this
          obtain ⟨h1, he1, he2', he3, he4, he5⟩ :=
            find_free_loop_restart_extract pt0 pages p 0x300000 1 cA (by omega)
              hl0 hnp
          have hq2 : pt2.entry h1 ≠ none := by
            rw [HA h1]
            exact he3
          have hclimb := find_free_loop_climb pt2 pages h1 hq2 (by omega)
            (by omega) (h1 + 1) (1 + cB + 1) (by omega) (by omega) (by omega)
            (by
              intro hmod'
              have hsl : (1 + cB + 1) >>> 10 = (1 + cB) >>> 10 := by
                rw [shr10_eq, shr10_eq]
                omega
              rw [hsl, h2]
              simp)
          have hpair := find_free_loop_pair pt0 pt2 HA HB pages 0x300000
            (h1 + 1) 0 (by omega)
            (by
              intro hmod'
              have hsl : (h1 + 1 + 0) >>> 10 = h1 >>> 10 := by
                rw [shr10_eq, shr10_eq]
                omega
              rw [hsl]
              exact entry_slot_installed pt0 h1 he3)
          rw [hused, hclimb, ← hpair]
          rw [he5] at hl0
          exact hl0

end VirtualMemory

/-! ## Slot-level bookkeeping lemmas -/

theorem Dir.table_create_other (pt : Dir) (dd d : Nat) (h : d ≠ dd) :
    (pt.table_create dd).2 d = pt d := by
  unfold Dir.table_create
  cases hp : pt dd <;> simp [hp, h]

theorem Dir.table_create_none (pt : Dir) (dd d : Nat)
    (h : (pt.table_create dd).2 d = none) : pt d = none := by
  by_cases hd : d = dd
  · subst hd
    unfold Dir.table_create at h
    cases hp : pt d <;> simp [hp] at h <;> simp [hp]
  · rwa [Dir.table_create_other pt dd d hd] at h

theorem Dir.setEntry_other_slot (pt : Dir) (dd i : Nat) (e : Entry) (d : Nat)
    (h : d ≠ dd) : (pt.setEntry dd i e) d = pt d := by
  unfold Dir.setEntry
  rw [if_neg h]

theorem Dir.setEntry_some (pt : Dir) (d i : Nat) (e : Entry) :
    (pt.setEntry d i e) d ≠ none := by
  unfold Dir.setEntry
  rw [if_pos rfl]
  cases pt d <;> simp

namespace VirtualMemory

theorem map_loop_none_mono (pt : Dir) (page frame n : Nat) (pt' : Dir)
    (h : map_loop pt page frame n = Halt.ok pt') :
    ∀ d, pt' d = none → pt d = none := by
  induction n generalizing pt page frame with
  | zero =>
    simp only [map_loop] at h
    cases h
    intro d hd
    exact hd
  | succ m ih =>
    simp only [map_loop] at h
    by_cases hfree : ((pt.table_create (page >>> 10)).1 (page &&& 0x3FF)).isNone
    · rw [if_pos hfree] at h
      intro d hd
      have h2 := ih _ _ _ h d hd
      obtain ⟨h3, _⟩ := Dir.setEntry_installed _ _ _ _ _ h2
      exact Dir.table_create_none _ _ _ h3
    · rw [if_neg hfree] at h
      cases h

theorem map_loop_installs (pt : Dir) (page frame m : Nat) (pt' : Dir)
    (h : map_loop pt page frame (m + 1) = Halt.ok pt') :
    pt' (page >>> 10) ≠ none := by
  simp only [map_loop] at h
  by_cases hfree : ((pt.table_create (page >>> 10)).1 (page &&& 0x3FF)).isNone
  · rw [if_pos hfree] at h
    intro hnone
    have := map_loop_none_mono _ _ _ _ _ h _ hnone
    exact Dir.setEntry_some _ _ _ _ this
  · rw [if_neg hfree] at h
    cases h

theorem map_loop_new_installed (pt : Dir) (page frame n : Nat) (pt' : Dir)
    (h : map_loop pt page frame n = Halt.ok pt') :
    ∀ d, pt d = none → pt' d ≠ none → ∃ i, i < n ∧ (page + i) >>> 10 = d := by
  induction n generalizing pt page frame with
  | zero =>
    simp only [map_loop] at h
    cases h
    intro d hd hd'
    exact absurd hd hd'
  | succ m ih =>
    simp only [map_loop] at h
    by_cases hfree : ((pt.table_create (page >>> 10)).1 (page &&& 0x3FF)).isNone
    · rw [if_pos hfree] at h
      intro d hd hd'
      by_cases hdp : d = page >>> 10
      · exact ⟨0, by omega, by rw [Nat.add_zero]; exact hdp.symm⟩
      · have hd2 : ((pt.table_create (page >>> 10)).2.setEntry (page >>> 10)
            (page &&& 0x3FF) (some frame)) d = none := by
          rw [Dir.setEntry_other_slot _ _ _ _ _ hdp,
            Dir.table_create_other _ _ _ hdp]
          exact hd
        obtain ⟨i, hi, hieq⟩ := ih _ _ _ h d hd2 hd'
        exact ⟨i + 1, by omega, by rwa [show page + (i + 1) = page + 1 + i by omega]⟩
    · rw [if_neg hfree] at h
      cases h

theorem map_loop_entry_free_orig (pt : Dir) (page frame n : Nat) (pt' : Dir)
    (h : map_loop pt page frame n = Halt.ok pt') :
    ∀ i, i < n → pt.entry (page + i) = none := by
  induction n generalizing pt page frame with
  | zero => omega
  | succ m ih =>
    simp only [map_loop] at h
    by_cases hfree : ((pt.table_create (page >>> 10)).1 (page &&& 0x3FF)).isNone
    · rw [if_pos hfree] at h
      intro i hi
      match i with
      | 0 =>
        rw [Nat.add_zero]
        rw [Dir.table_create_fst] at hfree
        cases he : pt.entry page
        · rfl
        · rw [he] at hfree
          cases hfree
      | j + 1 =>
        have := ih _ _ _ h j (by omega)
        rw [Dir.setEntry_entry_ne _ _ _ _ (by omega), Dir.table_create_entry]
          at this
        rwa [show page + (j + 1) = page + 1 + j by omega]
    · rw [if_neg hfree] at h
      cases h

theorem free_loop_none_mono (k : Kernel) (page n : Nat) (k' : Kernel)
    (h : free_loop k page n = Halt.ok k') :
    ∀ d, k'.pt d = none → k.pt d = none := by
  induction n generalizing k page with
  | zero =>
    simp only [free_loop] at h
    cases h
    intro d hd
    exact hd
  | succ m ih =>
    cases hpt : k.pt (page >>> 10) with
    | none =>
      simp only [free_loop, Dir.table, hpt] at h
      cases h
    | some t =>
      cases he : t (page &&& 0x3FF) with
      | none =>
        simp only [free_loop, Dir.table, hpt, he] at h
        cases h
      | some fr =>
        have hstep : free_loop k page (m + 1) =
            free_loop
              { pt := k.pt.setEntry (page >>> 10) (page &&& 0x3FF) none
                pm := k.pm.mark_free fr 1 } (page + 1) m := by
          simp only [free_loop, Dir.table, hpt, he]
        rw [hstep] at h
        intro d hd
        have h2 := ih _ _ h d hd
        obtain ⟨h3, _⟩ := Dir.setEntry_installed _ _ _ _ _ h2
        exact h3

theorem free_loop_no_new (k : Kernel) (page n : Nat) (k' : Kernel)
    (h : free_loop k page n = Halt.ok k') :
    ∀ d, k.pt d = none → k'.pt d = none := by
  induction n generalizing k page with
  | zero =>
    simp only [free_loop] at h
    cases h
    intro d hd
    exact hd
  | succ m ih =>
    cases hpt : k.pt (page >>> 10) with
    | none =>
      simp only [free_loop, Dir.table, hpt] at h
      cases h
    | some t =>
      cases he : t (page &&& 0x3FF) with
      | none =>
        simp only [free_loop, Dir.table, hpt, he] at h
        cases h
      | some fr =>
        have hstep : free_loop k page (m + 1) =
            free_loop
              { pt := k.pt.setEntry (page >>> 10) (page &&& 0x3FF) none
                pm := k.pm.mark_free fr 1 } (page + 1) m := by
          simp only [free_loop, Dir.table, hpt, he]
        rw [hstep] at h
        intro d hd
        refine ih _ _ h d ?_
        show (k.pt.setEntry (page >>> 10) (page &&& 0x3FF) none) d = none
        by_cases hdp : d = page >>> 10
        · subst hdp
          rw [hd] at hpt
          cases hpt
        · rw [Dir.setEntry_other_slot _ _ _ _ _ hdp]
          exact hd

end VirtualMemory

/-! ## Physical-memory facts for the round trip -/

theorem PhysMem.eq_of (pm1 pm2 : PhysMem)
    (h1 : ∀ x, pm1.status x = pm2.status x) (h2 : pm1.limit = pm2.limit) :
    pm1 = pm2 := by
  cases pm1
  cases pm2
  simp_all
  exact funext h1

theorem PhysMem.findFrom_freeRun (pm : PhysMem) (count : Nat) :
    ∀ r f0 f, pm.findFrom count f0 r = some f → pm.freeRun f count = true := by
  intro r
  induction r with
  | zero =>
    intro f0 f h
    cases h
  | succ m ih =>
    intro f0 f h
    unfold PhysMem.findFrom at h
    by_cases hr : pm.freeRun f0 count = true
    · rw [if_pos hr] at h
      cases h
      exact hr
    · rw [if_neg hr] at h
      exact ih (f0 + 1) f h

theorem PhysMem.find_free_freeRun (pm : PhysMem) (count f : Nat)
    (h : pm.find_free count = some f) : pm.freeRun f count = true := by
  unfold PhysMem.find_free at h
  by_cases hc : count ≤ pm.limit
  · rw [if_pos hc] at h
    exact PhysMem.findFrom_freeRun pm count _ 0 f h
  · rw [if_neg hc] at h
    cases h

theorem PhysMem.freeRun_status (pm : PhysMem) :
    ∀ count f, pm.freeRun f count = true →
      ∀ i, i < count → pm.status (f + i) = true := by
  intro count
  induction count with
  | zero => omega
  | succ m ih =>
    intro f h i hi
    unfold PhysMem.freeRun at h
    rw [Bool.and_eq_true] at h
    match i with
    | 0 => simpa using h.1
    | j + 1 =>
      have := ih (f + 1) h.2 j (by omega)
      rwa [show f + (j + 1) = f + 1 + j by omega]

/-! ## Assembling the allocate/free round trip -/

theorem allocate_contiguous_ok_elim (k : Kernel) (n p f : Nat) (k1 : Kernel)
    (h : VirtualMemory.allocate_contiguous k n = Halt.ok (some (p, f), k1)) :
    k.pm.find_free n = some f ∧
    VirtualMemory.find_free k.pt n = some p ∧
    ∃ pt', VirtualMemory.map_loop k.pt p f n = Halt.ok pt' ∧
      k1 = ⟨pt', k.pm.mark_used f n⟩ := by
  unfold VirtualMemory.allocate_contiguous at h
  cases hpm : k.pm.find_free n with
  | none =>
    simp only [hpm] at h
    simp at h
  | some f0 =>
    simp only [hpm] at h
    cases hmap : VirtualMemory.map ⟨k.pt, k.pm.mark_used f0 n⟩ f0 n with
    | ok pr =>
      obtain ⟨op, k2⟩ := pr
      cases op with
      | none =>
        simp only [hmap] at h
        simp at h
      | some p0 =>
        simp only [hmap] at h
        rw [Halt.ok.injEq, Prod.mk.injEq, Option.some.injEq, Prod.mk.injEq] at h
        obtain ⟨⟨rfl, rfl⟩, rfl⟩ := h
        obtain ⟨hf, pt', hloop, hk⟩ :=
          VirtualMemory.map_ok_some_elim _ _ _ _ _ hmap
        exact ⟨rfl, hf, pt', hloop, hk⟩
    | panicked msg =>
      simp only [hmap] at h
      simp at h

/-- The free-space search on the page tables left by a successful
allocate/free round trip returns the same start as the search on the
original tables.  `pt2` and `pt0` have identical page-level content; `pt2`
only installs additional all-free tables, all of them covering pages of
the returned run. -/
theorem find_free_roundtrip (pt0 pt2 : Dir) (n p : Nat)
    (HA : ∀ q, pt2.entry q = pt0.entry q)
    (HB : ∀ d, pt2 d = none → pt0 d = none)
    (hff0 : VirtualMemory.find_free pt0 n = some p)
    (horig : ∀ i, i < n → pt0.entry (p + i) = none)
    (hP : n ≠ 0 → pt2 (p >>> 10) ≠ none)
    (hNew : ∀ d, pt0 d = none → pt2 d ≠ none →
      ∃ i, i < n ∧ (p + i) >>> 10 = d) :
    VirtualMemory.find_free pt2 n = some p := by
  obtain ⟨hp1, hpb⟩ := VirtualMemory.find_free_some_bounds pt0 n p hff0
  by_cases hn : n = 0
  · subst hn
    unfold VirtualMemory.find_free at hff0 ⊢
    rw [VirtualMemory.find_free_loop_exit pt0 0 1 0 (by omega)] at hff0
    cases hff0
    exact VirtualMemory.find_free_loop_exit pt2 0 1 0 (by omega)
  · unfold VirtualMemory.find_free at hff0 ⊢
    cases h00 : pt0 ((1 + 0) >>> 10) with
    | some t0 =>
      rw [← VirtualMemory.find_free_loop_pair pt0 pt2 HA HB n 0x300000 1 0
        (by omega) (by intro _; rw [h00]; simp)]
      exact hff0
    | none =>
      cases h20 : pt2 ((1 + 0) >>> 10) with
      | some t2 =>
        have hple : p ≤ 1023 := by
          obtain ⟨i, hi, hieq⟩ := hNew _ h00 (by rw [h20]; simp)
          have : (p + i) >>> 10 = 0 := hieq
          rw [shr10_eq] at this
          omega
        have hp1' : p = 1 := by
          rcases VirtualMemory.find_free_loop_pred_used pt0 n 0x300000 1 0 p
            (by omega) hff0 with h | h
          · exact h
          · by_contra hne
            apply h
            have hsl : (p - 1) >>> 10 = (1 + 0) >>> 10 := by
              rw [shr10_eq]
              rw [show (1 + 0) >>> 10 = 0 from rfl]
              omega
            unfold Dir.entry
            rw [hsl, h00]
        subst hp1'
        apply VirtualMemory.find_free_loop_accept pt2 n 1 ?_ (by omega)
          0x300000 0 (by omega)
        intro j hj
        rw [HA]
        exact horig j hj
      | none =>
        have hnp : p ≠ 1 := by
          intro hp
          subst hp
          exact (hP hn) h20
        exact VirtualMemory.find_free_loop_chain pt0 pt2 n p HA HB hnp hpb hp1
          n 0 0 (by omega) (by omega) (Or.inl rfl) hff0

/-- C5: a successful `allocate_contiguous(n)` at `(p, f)` followed by
`free(p, n)` restores every frame status and every page entry to its
original value (the newly created tables remain installed but entirely
free), and the subsequent `allocate(n)` returns the same page start `p`. -/
theorem claim_C5 (k : Kernel) (n p f : Nat) (k1 : Kernel)
    (h : VirtualMemory.allocate_contiguous k n = Halt.ok (some (p, f), k1)) :
    ∃ k2, VirtualMemory.free k1 p n = Halt.ok k2 ∧
      (∀ x, k2.pm.status x = k.pm.status x) ∧
      k2.pm.limit = k.pm.limit ∧
      (∀ q, k2.pt.entry q = k.pt.entry q) ∧
      ∃ k3, VirtualMemory.allocate k2 n = Halt.ok (some p, k3) := by
  obtain ⟨hpm, hff0, pt', hloop, hk1⟩ := allocate_contiguous_ok_elim k n p f k1 h
  subst hk1
  have hrunfree : ∀ i, i < n → k.pm.status (f + i) = true :=
    PhysMem.freeRun_status k.pm n f (PhysMem.find_free_freeRun k.pm n f hpm)
  have horig := VirtualMemory.map_loop_entry_free_orig k.pt p f n pt' hloop
  have hmapped := VirtualMemory.map_loop_entries k.pt p f n pt' hloop
  have hpres := VirtualMemory.map_loop_preserves k.pt p f n pt' hloop
  obtain ⟨k2, hk2, hin, hout, hstin, hstout, hlim⟩ :=
    VirtualMemory.free_loop_ok ⟨pt', k.pm.mark_used f n⟩ p n (fun j => f + j)
      (fun i hi => hmapped i hi)
  have hstat : ∀ x, k2.pm.status x = k.pm.status x := by
    intro x
    by_cases hx : ∃ i, i < n ∧ f + i = x
    · obtain ⟨i, hi, hfx⟩ := hx
      rw [← hfx, hstin i hi]
      exact (hrunfree i hi).symm
    · push_neg at hx
      rw [hstout x hx]
      show (k.pm.mark_used f n).status x = k.pm.status x
      simp only [PhysMem.mark_used]
      rw [if_neg ?hcond]
      case hcond =>
        rintro ⟨hge, hlt⟩
        exact hx (x - f) (by omega) (by omega)
  have hlimit : k2.pm.limit = k.pm.limit := hlim
  have hHA : ∀ q, k2.pt.entry q = k.pt.entry q := by
    intro q
    by_cases hq : ∃ i, i < n ∧ q = p + i
    · obtain ⟨i, hi, rfl⟩ := hq
      rw [hin i hi]
      exact (horig i hi).symm
    · push_neg at hq
      rw [hout q hq]
      show pt'.entry q = k.pt.entry q
      apply hpres
      by_contra hc
      push_neg at hc
      exact hq (q - p) (by omega) (by omega)
  have hHB : ∀ d, k2.pt d = none → k.pt d = none := fun d hd =>
    VirtualMemory.map_loop_none_mono k.pt p f n pt' hloop d
      (VirtualMemory.free_loop_none_mono _ p n k2 hk2 d hd)
  have hP : n ≠ 0 → k2.pt (p >>> 10) ≠ none := by
    intro hn hnone
    match n, hn, hloop, hk2 with
    | m + 1, _, hloop, hk2 =>
      exact VirtualMemory.map_loop_installs k.pt p f m pt' hloop
        (VirtualMemory.free_loop_none_mono _ p (m + 1) k2 hk2 _ hnone)
  have hNew : ∀ d, k.pt d = none → k2.pt d ≠ none →
      ∃ i, i < n ∧ (p + i) >>> 10 = d := by
    intro d hd hd2
    apply VirtualMemory.map_loop_new_installed k.pt p f n pt' hloop d hd
    intro hptd
    exact hd2 (VirtualMemory.free_loop_no_new _ p n k2 hk2 d hptd)
  have hff2 := find_free_roundtrip k.pt k2.pt n p hHA hHB hff0 horig hP hNew
  have hpmEq : k2.pm = k.pm := PhysMem.eq_of _ _ hstat hlimit
  obtain ⟨pt'', hl2⟩ :=
    VirtualMemory.map_loop_ok_of_free k2.pt p f n
      (fun i hi => by rw [hHA]; exact horig i hi)
  have hac : VirtualMemory.allocate_contiguous k2 n =
      Halt.ok (some (p, f), ⟨pt'', k2.pm.mark_used f n⟩) :=
    allocate_contiguous_eval k2.pt k2.pm n f p pt''
      (by rw [hpmEq]; exact hpm) hff2 hl2
  exact ⟨k2, hk2, hstat, hlimit, hHA,
    ⟨pt'', k2.pm.mark_used f n⟩, allocate_of_contiguous k2 n p f _ hac⟩

/-- C5 witness: allocate two pages from the empty kernel, free them, and
allocate again. -/
theorem claim_C5_witness :
    ∃ k2, VirtualMemory.free kSpost 1 1 = Halt.ok k2 ∧
      (∀ x, k2.pm.status x = kS.pm.status x) ∧
      k2.pm.limit = kS.pm.limit ∧
      (∀ q, k2.pt.entry q = kS.pt.entry q) ∧
      ∃ k3, VirtualMemory.allocate k2 1 = Halt.ok (some 1, k3) :=
  claim_C5 kS 1 1 0 kSpost allocS
